import Mathlib

/-!
# Verification of the git-wt worktree classification and selection engine

A shallow embedding of the core logic of the `git-wt` tool:

* the `Worktree` record and its classification methods
  (`internal/git` package: `IsClean`, `BranchShort`, `StatusText`,
  `SyncText`, `InactiveDays`),
* the branch resolver `matchWorktrees` (`cmd/root.go`),
* the interactive multi-select deletion TUI state machine
  (`internal/tui/selector.go`: `updateList`, `updateConfirm`,
  `executeRemoval`, `selectedCount`, `buildTags`),
* the worktree removal helper `RemoveWorktree` (`internal/git`),
* the staleness test of the `clean` command (`cmd/clean.go` / `runClean`).

External effects (the `git` binary, the terminal) are modelled as explicit
environments; Go's implicit clock (`time.Since`) is an explicit `now`
parameter (Unix seconds); Go string values are Lean `String`s; Go slice
iteration becomes structural recursion over `List`.  Terminal styling
(`lipgloss .Render`) only wraps strings in colour escapes and is modelled
as the identity on the rendered text.
-/

/-- Join a list of strings with a separator.  Models Go `strings.Join`. -/
def joinSep (sep : String) : List String → String
  | [] => ""
  | [a] => a
  | a :: b :: rest => a ++ sep ++ joinSep sep (b :: rest)

/-- Bool test that `pat` occurs as a contiguous substring of the second list.
Models Go `strings.Contains` on the underlying character sequences. -/
def listInfixB (pat : List Char) : List Char → Bool
  | [] => pat.isEmpty
  | c :: rest => List.isPrefixOf pat (c :: rest) || listInfixB pat rest

/-- `strings.Contains s pat` on strings. -/
def containsSubstring (s pat : String) : Bool :=
  listInfixB pat.toList s.toList

/-- `strings.HasPrefix s pre`, on the underlying character sequences. -/
def strStartsWith (s pre : String) : Bool :=
  List.isPrefixOf pre.toList s.toList

/-- `strings.TrimPrefix s pre`: drop `pre` from the front of `s` when `s`
starts with it, otherwise return `s` unchanged. -/
def trimPre (s pre : String) : String :=
  if strStartsWith s pre then String.mk (s.toList.drop pre.toList.length) else s

/-- ASCII lower-casing of one character (`strings.ToLower` acts as this on
the ASCII branch names the tool handles). -/
def charLower (c : Char) : Char :=
  if 65 ≤ c.toNat ∧ c.toNat ≤ 90 then Char.ofNat (c.toNat + 32) else c

/-- `strings.ToLower`. -/
def strLower (s : String) : String :=
  String.mk (s.toList.map charLower)

/-- `strings.EqualFold`, modelled as equality after lower-casing both sides. -/
def caseFoldEq (a b : String) : Bool :=
  strLower a == strLower b

/-- The `git.Worktree` record (`internal/git/worktree.go`).  `LastCommit` is a
`time.Time` whose zero value means "unknown"; we model it as
`Option Int` (Unix seconds), `none` being the zero value. -/
structure Worktree where
  path : String
  head : String
  branch : String
  isBare : Bool
  isDetached : Bool
  isCurrent : Bool
  modified : Nat
  untracked : Nat
  ahead : Nat
  behind : Nat
  isMerged : Bool
  lastCommit : Option Int
  deriving Repr, DecidableEq

/-- `Worktree.IsClean`: both dirty counters are zero. -/
def Worktree.isClean (w : Worktree) : Bool :=
  w.modified == 0 && w.untracked == 0

/-- `Worktree.BranchShort`: strip the `refs/heads/` ref namespace. -/
def Worktree.branchShort (w : Worktree) : String :=
  trimPre w.branch "refs/heads/"

/-- `Worktree.StatusText`: `"bare"` for bare records, `"clean"` when both
counters are zero, otherwise the comma-joined positive counters. -/
def Worktree.statusText (w : Worktree) : String :=
  if w.isBare then "bare"
  else if w.isClean then "clean"
  else
    joinSep ", "
      ((if w.modified > 0 then [toString w.modified ++ " modified"] else [])
        ++ (if w.untracked > 0 then [toString w.untracked ++ " untracked"] else []))

/-- `Worktree.SyncText`: `"-"` when in sync, otherwise behind then ahead
indicators, space-joined, omitting zero counts. -/
def Worktree.syncText (w : Worktree) : String :=
  if w.ahead == 0 && w.behind == 0 then "-"
  else
    joinSep " "
      ((if w.behind > 0 then ["↓" ++ toString w.behind] else [])
        ++ (if w.ahead > 0 then ["↑" ++ toString w.ahead] else []))

/-- `Worktree.InactiveDays`: `int(time.Since(w.LastCommit).Hours() / 24)`
with `now` the clock reading; `0` for the unknown (zero) timestamp.  Go's
float-to-int conversion truncates toward zero, which on integer second
differences is `Int.tdiv` by `86400`. -/
def Worktree.inactiveDays (w : Worktree) (now : Int) : Int :=
  match w.lastCommit with
  | none => 0
  | some lc => Int.tdiv (now - lc) 86400

/-- `BuildTags` (`internal/tui/tags.go` and the identical method
`model.buildTags`): ordered tag list rendered as `[t1, t2, ...]`, empty
string when no tag applies.  Style `Render` calls are the identity. -/
def buildTags (w : Worktree) (now : Int) : String :=
  let tags : List String :=
    (if w.isCurrent then ["current"] else [])
      ++ (if !w.isClean then [w.statusText] else [])
      ++ (if w.isMerged then ["merged"] else [])
      ++ (let sync := w.syncText
          if sync != "-" then [sync] else [])
      ++ (let days := w.inactiveDays now
          if days > 30 then [toString days ++ "d stale"] else [])
  if tags.isEmpty then "" else "[" ++ joinSep ", " tags ++ "]"

/-- `matchWorktrees` (`cmd/switch.go`): three-tier case-insensitive branch
resolver.  Tier 1 returns the first exact (case-folded) match alone; tier 2
returns all lower-cased-prefix matches; tier 3 all substring matches. -/
def matchWorktrees (worktrees : List Worktree) (query : String) : List Worktree :=
  let queryLower := strLower query
  match worktrees.find? (fun wt => caseFoldEq wt.branchShort query) with
  | some wt => [wt]
  | none =>
    let pMatches := worktrees.filter
      (fun wt => strStartsWith (strLower wt.branchShort) queryLower)
    if !pMatches.isEmpty then pMatches
    else worktrees.filter
      (fun wt => containsSubstring (strLower wt.branchShort) queryLower)

/-- The per-worktree staleness test of `runClean` (`cmd/clean.go`).  In both
branches of the candidate loop the test is
`staleDays > 0 && wt.InactiveDays() >= staleDays`, `staleDays` being the
`--stale` flag value when explicit flags are given, else the configured
`cleanup.staleDays`. -/
def cleanStaleHit (staleDays : Int) (w : Worktree) (now : Int) : Bool :=
  decide (staleDays > 0) && decide (w.inactiveDays now ≥ staleDays)

/-- The effective threshold `runClean` feeds into the staleness test:
the `--stale` flag value when explicit flags (`--merged` or `--stale N`)
are present, otherwise the configured `cleanup.staleDays`. -/
def effectiveStaleDays (mergedFlag : Bool) (staleFlag cfgStaleDays : Int) : Int :=
  if mergedFlag || staleFlag > 0 then staleFlag else cfgStaleDays

/-- Modelled from the spec (no function named `isStale` exists in the
source; the spec defines the rule): `true iff inactiveDays(record) >
thresholdDays`, strictly. -/
def isStaleSpec (w : Worktree) (thresholdDays now : Int) : Bool :=
  decide (w.inactiveDays now > thresholdDays)


/-- TUI mode (`internal/tui/selector.go`): `modeList`, `modeConfirm`,
`modeDone`. -/
inductive Mode
  | list
  | confirm
  | done
  deriving Repr, DecidableEq

/-- `item`: a worktree plus its selection checkbox. -/
structure Item where
  worktree : Worktree
  checked : Bool
  deriving Repr, DecidableEq

/-- The TUI `model` (fields relevant to the state machine; window size and
`repoDir` are omitted — `repoDir` only routes the external git calls, which
the `GitEnv` environment models directly).  `confirmCursor`: 0 = No,
1 = Yes. -/
structure TuiModel where
  items : List Item
  cursor : Nat
  mode : Mode
  confirmCursor : Int
  removed : List String
  errors : List String
  deriving Repr, DecidableEq

/-- Key messages the two update handlers distinguish (`msg.String()`
values); `other` stands for every unhandled key. -/
inductive Key
  | q | ctrlC | esc | up | k | down | j | space | x | a | n | d | enter
  | left | h | right | l | tab | y | other
  deriving Repr, DecidableEq

/-- `New`: fresh items (unchecked), zero cursor, List mode. -/
def initModel (wts : List Worktree) : TuiModel :=
  { items := wts.map (fun wt => { worktree := wt, checked := false })
    cursor := 0
    mode := Mode.list
    confirmCursor := 0
    removed := []
    errors := [] }

/-- `selectedCount`: number of checked items. -/
def selectedCount (m : TuiModel) : Nat :=
  m.items.foldl (fun c it => if it.checked then c + 1 else c) 0

/-- One external-git environment for the removal loop: the outcome of
`git.RemoveWorktree` per (path, deleteBranch) argument pair, and the
outcome of `git.PruneWorktrees` (ignored by the code). -/
structure GitEnv where
  removeWorktree : String → Bool → Except String Unit
  pruneOk : Bool

/-- Externally visible git operations issued by the removal loop. -/
inductive GitCall
  | removeCall (path : String) (deleteBranch : Bool)
  | pruneCall
  deriving Repr, DecidableEq

/-- The `for i := range m.items` loop body of `executeRemoval`: walk the
items in order, attempt every checked one, collect branch names of
successes, `"<branch>: <err>"` strings of failures, and the trace of
issued removal calls. -/
def removalLoop (env : GitEnv) : List Item → List String × List String × List GitCall
  | [] => ([], [], [])
  | it :: rest =>
    if it.checked then
      let branch := it.worktree.branchShort
      let tail := removalLoop env rest
      match env.removeWorktree it.worktree.path it.worktree.isMerged with
      | Except.error e =>
        (tail.1, (branch ++ ": " ++ e) :: tail.2.1,
          GitCall.removeCall it.worktree.path it.worktree.isMerged :: tail.2.2)
      | Except.ok _ =>
        (branch :: tail.1, tail.2.1,
          GitCall.removeCall it.worktree.path it.worktree.isMerged :: tail.2.2)
    else removalLoop env rest

/-- `model.executeRemoval`: run the loop, append results to the model's
accumulators, issue one prune (result discarded), switch to Done.  The
second component is the trace of git calls issued. -/
def executeRemoval (env : GitEnv) (m : TuiModel) : TuiModel × List GitCall :=
  let r := removalLoop env m.items
  ({ m with removed := m.removed ++ r.1, errors := m.errors ++ r.2.1, mode := Mode.done },
    r.2.2 ++ [GitCall.pruneCall])

/-- `model.updateList`.  `none` models the index-out-of-range panic of
`m.items[m.cursor]` (reachable only when the item list is empty). -/
def updateList (m : TuiModel) (key : Key) : Option TuiModel :=
  match key with
  | Key.q | Key.ctrlC | Key.esc => some m
  | Key.up | Key.k =>
    some (if m.cursor > 0 then { m with cursor := m.cursor - 1 } else m)
  | Key.down | Key.j =>
    some (if m.cursor < m.items.length - 1 then { m with cursor := m.cursor + 1 } else m)
  | Key.space | Key.x =>
    match m.items.get? m.cursor with
    | none => none
    | some it =>
      if it.worktree.isCurrent then some m
      else some { m with items := m.items.set m.cursor { it with checked := !it.checked } }
  | Key.a =>
    some { m with items := m.items.map (fun it =>
      if !it.worktree.isCurrent && it.worktree.isMerged then { it with checked := true } else it) }
  | Key.n =>
    some { m with items := m.items.map (fun it => { it with checked := false }) }
  | Key.d | Key.enter =>
    if selectedCount m > 0 then
      some { m with mode := Mode.confirm, confirmCursor := 0 }
    else some m
  | _ => some m

/-- `model.updateConfirm`; the trace component records the git calls the
transition issues (empty except on execution). -/
def updateConfirm (env : GitEnv) (m : TuiModel) (key : Key) : TuiModel × List GitCall :=
  match key with
  | Key.q | Key.ctrlC | Key.esc => ({ m with mode := Mode.list }, [])
  | Key.left | Key.h | Key.right | Key.l | Key.tab =>
    ({ m with confirmCursor := 1 - m.confirmCursor }, [])
  | Key.y => executeRemoval env { m with confirmCursor := 1 }
  | Key.n => ({ m with mode := Mode.list }, [])
  | Key.enter =>
    if m.confirmCursor == 1 then executeRemoval env m
    else ({ m with mode := Mode.list }, [])
  | _ => (m, [])

/-- `model.Update` restricted to key messages: dispatch on the mode.  In
Done mode every key quits with the state unchanged. -/
def update (env : GitEnv) (m : TuiModel) (key : Key) : Option (TuiModel × List GitCall) :=
  match m.mode with
  | Mode.list => (updateList m key).map (fun m2 => (m2, []))
  | Mode.confirm => some (updateConfirm env m key)
  | Mode.done => some (m, [])

/-- Feed a sequence of key messages through `update`. -/
def runKeys (env : GitEnv) (m : TuiModel) : List Key → Option TuiModel
  | [] => some m
  | key :: rest =>
    match update env m key with
    | none => none
    | some r => runKeys env r.1 rest

/-- Environment for one `git.RemoveWorktree` call: the outcomes of the
underlying git invocations it may issue (`worktree list`, plain and forced
`worktree remove`, `branch -d`). -/
structure RemoveEnv where
  listed : Except String (List Worktree)
  plainRemove : Except String Unit
  forceRemove : Except String Unit
  branchDelete : Except String Unit

/-- Externally visible steps of `git.RemoveWorktree`. -/
inductive RwStep
  | listStep
  | removeStep (force : Bool)
  | branchDelStep (name : String)
  deriving Repr, DecidableEq

/-- `git.RemoveWorktree(repoDir, wtPath, deleteBranch)`: look up the branch
name of the worktree at `wtPath` (only when `deleteBranch`), attempt
removal, retry with `--force` on failure, return the forced attempt's
error when both fail; afterwards delete the branch with its outcome
discarded (`_, _ = run(...)`).  Paths are modelled as already absolute, so
`filepath.Abs` is the identity.  Returns the result and the issued steps. -/
def removeWorktree (env : RemoveEnv) (wtPath : String) (deleteBranch : Bool) :
    Except String Unit × List RwStep :=
  let look : String × List RwStep :=
    if deleteBranch then
      match env.listed with
      | Except.error _ => ("", [RwStep.listStep])
      | Except.ok wts =>
        match wts.find? (fun wt => wt.path == wtPath) with
        | some wt => (wt.branchShort, [RwStep.listStep])
        | none => ("", [RwStep.listStep])
    else ("", [])
  let branchName := look.1
  let afterRemove : Except String Unit × List RwStep :=
    match env.plainRemove with
    | Except.ok _ => (Except.ok (), look.2 ++ [RwStep.removeStep false])
    | Except.error _ =>
      match env.forceRemove with
      | Except.ok _ => (Except.ok (), look.2 ++ [RwStep.removeStep false, RwStep.removeStep true])
      | Except.error e =>
        (Except.error e, look.2 ++ [RwStep.removeStep false, RwStep.removeStep true])
  match afterRemove.1 with
  | Except.error e => (Except.error e, afterRemove.2)
  | Except.ok _ =>
    if deleteBranch && branchName != "" then
      (Except.ok (), afterRemove.2 ++ [RwStep.branchDelStep branchName])
    else (Except.ok (), afterRemove.2)

/-- The checked items, in list order. -/
def checkedOf (items : List Item) : List Item :=
  items.filter (fun it => it.checked)

/-- Branch short names of the checked items whose removal succeeds, in
list order. -/
def removedSpec (env : GitEnv) (items : List Item) : List String :=
  (checkedOf items).filterMap (fun it =>
    match env.removeWorktree it.worktree.path it.worktree.isMerged with
    | Except.ok _ => some it.worktree.branchShort
    | Except.error _ => none)

/-- `"<name>: <cause>"` strings of the checked items whose removal fails,
in list order. -/
def errorsSpec (env : GitEnv) (items : List Item) : List String :=
  (checkedOf items).filterMap (fun it =>
    match env.removeWorktree it.worktree.path it.worktree.isMerged with
    | Except.ok _ => none
    | Except.error e => some (it.worktree.branchShort ++ ": " ++ e))

/-- The removal calls the loop issues: one per checked item, in list
order, with `deleteBranch` equal to the item's `isMerged` snapshot. -/
def removeCallsSpec (items : List Item) : List GitCall :=
  (checkedOf items).map (fun it => GitCall.removeCall it.worktree.path it.worktree.isMerged)

/-- The resolver's tier-1 predicate: case-insensitive equality of the
branch short name with the query. -/
def exactPred (query : String) (wt : Worktree) : Bool :=
  caseFoldEq wt.branchShort query

/-- Tier-2 candidate set: all worktrees whose lower-cased short name
starts with the lower-cased query, in list order. -/
def prefMatchesOf (wts : List Worktree) (query : String) : List Worktree :=
  wts.filter (fun wt => strStartsWith (strLower wt.branchShort) (strLower query))

/-- Tier-3 candidate set: all worktrees whose lower-cased short name
contains the lower-cased query, in list order. -/
def subMatchesOf (wts : List Worktree) (query : String) : List Worktree :=
  wts.filter (fun wt => containsSubstring (strLower wt.branchShort) (strLower query))

/-- No item whose record is the current worktree is checked. -/
def noCurrentChecked (m : TuiModel) : Prop :=
  ∀ it ∈ m.items, it.worktree.isCurrent = true → it.checked = false

/-- A git environment in which every removal succeeds. -/
def env0 : GitEnv :=
  { removeWorktree := fun _ _ => Except.ok (), pruneOk := true }

/-- A concrete current worktree on `main`. -/
def wtMain : Worktree :=
  { path := "/repo", head := "aaaa1111", branch := "refs/heads/main",
    isBare := false, isDetached := false, isCurrent := true,
    modified := 0, untracked := 0, ahead := 0, behind := 0,
    isMerged := false, lastCommit := none }

/-- A concrete merged feature worktree. -/
def wtFeatureAuth : Worktree :=
  { path := "/repo-feature-auth", head := "bbbb2222", branch := "refs/heads/feature-auth",
    isBare := false, isDetached := false, isCurrent := false,
    modified := 0, untracked := 0, ahead := 0, behind := 0,
    isMerged := true, lastCommit := none }

/-- A concrete unmerged feature worktree. -/
def wtFeatureApi : Worktree :=
  { path := "/repo-feature-api", head := "cccc3333", branch := "refs/heads/feature-api",
    isBare := false, isDetached := false, isCurrent := false,
    modified := 0, untracked := 0, ahead := 0, behind := 0,
    isMerged := false, lastCommit := none }

/-- A concrete hotfix worktree. -/
def wtHotfix : Worktree :=
  { path := "/repo-hotfix-123", head := "dddd4444", branch := "refs/heads/hotfix-123",
    isBare := false, isDetached := false, isCurrent := false,
    modified := 0, untracked := 0, ahead := 0, behind := 0,
    isMerged := true, lastCommit := none }

/-- The resolver candidate list of the spec's tie-break example. -/
def demoWts : List Worktree := [wtMain, wtFeatureAuth, wtFeatureApi, wtHotfix]

/-- A bare worktree record with zero dirty counters. -/
def bareWt : Worktree :=
  { path := "/repo/.bare", head := "eeee5555", branch := "",
    isBare := true, isDetached := false, isCurrent := false,
    modified := 0, untracked := 0, ahead := 0, behind := 0,
    isMerged := false, lastCommit := none }

/-- A worktree whose last commit is exactly 30 days before the clock
reading `2592000` (30 · 86400 seconds after the epoch). -/
def staleWt : Worktree :=
  { path := "/repo-old", head := "ffff6666", branch := "refs/heads/old-branch",
    isBare := false, isDetached := false, isCurrent := false,
    modified := 0, untracked := 0, ahead := 0, behind := 0,
    isMerged := false, lastCommit := some 0 }

/-- A removal environment in which both removal attempts fail. -/
def rmEnvFail : RemoveEnv :=
  { listed := Except.ok demoWts, plainRemove := Except.error "locked",
    forceRemove := Except.error "still locked", branchDelete := Except.ok () }

/-- A removal environment in which only the forced attempt succeeds and
the branch is already gone. -/
def rmEnvForceOk : RemoveEnv :=
  { listed := Except.ok demoWts, plainRemove := Except.error "locked",
    forceRemove := Except.ok (), branchDelete := Except.error "branch gone" }

/-- The initial interactive session over the demo worktrees. -/
def demoModel : TuiModel := initModel demoWts

/-- The demo session after "select merged" (`a`): the two merged
non-current worktrees are checked. -/
def demoAfterA : TuiModel :=
  { items := [{ worktree := wtMain, checked := false },
      { worktree := wtFeatureAuth, checked := true },
      { worktree := wtFeatureApi, checked := false },
      { worktree := wtHotfix, checked := true }]
    cursor := 0
    mode := Mode.list
    confirmCursor := 0
    removed := []
    errors := [] }

/-- The demo session in Confirm mode with the merged items checked and
the default "No" choice. -/
def demoConfirm : TuiModel :=
  { demoAfterA with mode := Mode.confirm }

/-- The cursor addresses a valid index of the item list. -/
def cursorOk (m : TuiModel) : Prop :=
  m.cursor < m.items.length

theorem removalLoop_eq (env : GitEnv) (items : List Item) :
    removalLoop env items = (removedSpec env items, errorsSpec env items, removeCallsSpec items) := by
  induction items with
  | nil => rfl
  | cons it rest ih =>
    cases hc : it.checked with
    | false =>
      simp [removalLoop, removedSpec, errorsSpec, removeCallsSpec, checkedOf,
        List.filter_cons, hc] at ih ⊢
      exact ih
    | true =>
      cases hr : env.removeWorktree it.worktree.path it.worktree.isMerged with
      | ok u =>
        simp [removalLoop, removedSpec, errorsSpec, removeCallsSpec, checkedOf,
          List.filter_cons, hc, hr, ih]
      | error e =>
        simp [removalLoop, removedSpec, errorsSpec, removeCallsSpec, checkedOf,
          List.filter_cons, hc, hr, ih]

theorem executeRemoval_items (env : GitEnv) (m : TuiModel) :
    (executeRemoval env m).1.items = m.items := rfl

theorem executeRemoval_cursor (env : GitEnv) (m : TuiModel) :
    (executeRemoval env m).1.cursor = m.cursor := rfl

theorem updateConfirm_items (env : GitEnv) (m : TuiModel) (key : Key) :
    (updateConfirm env m key).1.items = m.items := by
  cases key <;> simp [updateConfirm, executeRemoval] <;> split <;> rfl

theorem updateConfirm_cursor (env : GitEnv) (m : TuiModel) (key : Key) :
    (updateConfirm env m key).1.cursor = m.cursor := by
  cases key <;> simp [updateConfirm, executeRemoval] <;> split <;> rfl


theorem noCurrentChecked_of_items_eq {m m' : TuiModel} (h : m'.items = m.items)
    (hm : noCurrentChecked m) : noCurrentChecked m' := by
  intro it hmem hcur
  exact hm it (h ▸ hmem) hcur

theorem updateList_preserves_noCurrentChecked (m m' : TuiModel) (key : Key)
    (hm : noCurrentChecked m) (h : updateList m key = some m') :
    noCurrentChecked m' := by
  cases key <;> simp only [updateList, Option.some.injEq] at h
  case q => subst h; exact hm
  case ctrlC => subst h; exact hm
  case esc => subst h; exact hm
  case up =>
    subst h
    split
    · exact noCurrentChecked_of_items_eq rfl hm
    · exact hm
  case k =>
    subst h
    split
    · exact noCurrentChecked_of_items_eq rfl hm
    · exact hm
  case down =>
    subst h
    split
    · exact noCurrentChecked_of_items_eq rfl hm
    · exact hm
  case j =>
    subst h
    split
    · exact noCurrentChecked_of_items_eq rfl hm
    · exact hm
  case space =>
    cases hg : m.items.get? m.cursor with
    | none => rw [hg] at h; exact absurd h (by simp)
    | some it =>
      simp only [hg] at h
      by_cases hcur : it.worktree.isCurrent = true
      · simp only [hcur, if_pos, Option.some.injEq] at h
        subst h; exact hm
      · rw [if_neg hcur] at h
        simp only [Option.some.injEq] at h
        subst h
        intro it' hmem hcur'
        rcases List.mem_or_eq_of_mem_set hmem with hold | hnew
        · exact hm it' hold hcur'
        · subst hnew; exact absurd hcur' hcur
  case x =>
    cases hg : m.items.get? m.cursor with
    | none => rw [hg] at h; exact absurd h (by simp)
    | some it =>
      simp only [hg] at h
      by_cases hcur : it.worktree.isCurrent = true
      · simp only [hcur, if_pos, Option.some.injEq] at h
        subst h; exact hm
      · rw [if_neg hcur] at h
        simp only [Option.some.injEq] at h
        subst h
        intro it' hmem hcur'
        rcases List.mem_or_eq_of_mem_set hmem with hold | hnew
        · exact hm it' hold hcur'
        · subst hnew; exact absurd hcur' hcur
  case a =>
    subst h
    intro it' hmem hcur'
    rcases List.mem_map.1 hmem with ⟨it0, hit0, heq⟩
    by_cases hc : (!it0.worktree.isCurrent && it0.worktree.isMerged) = true
    · rw [if_pos hc] at heq
      subst heq
      simp only [Bool.and_eq_true, Bool.not_eq_true'] at hc
      exact absurd hcur' (by simp [hc.1])
    · rw [if_neg hc] at heq
      subst heq
      exact hm it0 hit0 hcur'
  case n =>
    subst h
    intro it' hmem _
    rcases List.mem_map.1 hmem with ⟨it0, _, heq⟩
    subst heq
    rfl
  case d =>
    split at h
    · simp only [Option.some.injEq] at h
      subst h
      exact noCurrentChecked_of_items_eq rfl hm
    · simp only [Option.some.injEq] at h
      subst h
      exact hm
  case enter =>
    split at h
    · simp only [Option.some.injEq] at h
      subst h
      exact noCurrentChecked_of_items_eq rfl hm
    · simp only [Option.some.injEq] at h
      subst h
      exact hm
  case left => subst h; exact hm
  case h => subst h; exact hm
  case right => subst h; exact hm
  case l => subst h; exact hm
  case tab => subst h; exact hm
  case y => subst h; exact hm
  case other => subst h; exact hm

theorem update_preserves_noCurrentChecked (env : GitEnv) (m : TuiModel) (key : Key)
    (r : TuiModel × List GitCall) (hm : noCurrentChecked m)
    (h : update env m key = some r) : noCurrentChecked r.1 := by
  cases hmode : m.mode
  case list =>
    simp only [update, hmode] at h
    cases hu : updateList m key with
    | none => rw [hu] at h; exact absurd h (by simp)
    | some m2 =>
      rw [hu] at h
      simp only [Option.map_some', Option.some.injEq] at h
      subst h
      exact updateList_preserves_noCurrentChecked m m2 key hm hu
  case confirm =>
    simp only [update, hmode, Option.some.injEq] at h
    subst h
    exact noCurrentChecked_of_items_eq (updateConfirm_items env m key) hm
  case done =>
    simp only [update, hmode, Option.some.injEq] at h
    subst h
    exact hm

theorem runKeys_preserves_noCurrentChecked (env : GitEnv) (keys : List Key) :
    ∀ (m m' : TuiModel), noCurrentChecked m → runKeys env m keys = some m' →
      noCurrentChecked m' := by
  induction keys with
  | nil =>
    intro m m' hm h
    simp only [runKeys, Option.some.injEq] at h
    subst h
    exact hm
  | cons key rest ih =>
    intro m m' hm h
    unfold runKeys at h
    cases hu : update env m key with
    | none => rw [hu] at h; exact absurd h (by simp)
    | some r =>
      rw [hu] at h
      exact ih r.1 m' (update_preserves_noCurrentChecked env m key r hm hu) h

theorem initModel_noCurrentChecked (wts : List Worktree) :
    noCurrentChecked (initModel wts) := by
  intro it hmem _
  rcases List.mem_map.1 hmem with ⟨wt, _, heq⟩
  subst heq
  rfl


theorem updateList_total_of_cursorOk (m : TuiModel) (key : Key) (h : cursorOk m) :
    ∃ m', updateList m key = some m' ∧ cursorOk m' := by
  have hlt : m.cursor < m.items.length := h
  cases key
  case q => exact ⟨m, rfl, h⟩
  case ctrlC => exact ⟨m, rfl, h⟩
  case esc => exact ⟨m, rfl, h⟩
  case up =>
    by_cases hc : m.cursor > 0
    · refine ⟨{ m with cursor := m.cursor - 1 }, by simp [updateList, hc], ?_⟩
      exact Nat.lt_of_le_of_lt (Nat.sub_le _ _) hlt
    · exact ⟨m, by simp [updateList, hc], h⟩
  case k =>
    by_cases hc : m.cursor > 0
    · refine ⟨{ m with cursor := m.cursor - 1 }, by simp [updateList, hc], ?_⟩
      exact Nat.lt_of_le_of_lt (Nat.sub_le _ _) hlt
    · exact ⟨m, by simp [updateList, hc], h⟩
  case down =>
    by_cases hc : m.cursor < m.items.length - 1
    · refine ⟨{ m with cursor := m.cursor + 1 }, by simp [updateList, hc], ?_⟩
      exact Nat.add_lt_of_lt_sub hc
    · exact ⟨m, by simp [updateList, hc], h⟩
  case j =>
    by_cases hc : m.cursor < m.items.length - 1
    · refine ⟨{ m with cursor := m.cursor + 1 }, by simp [updateList, hc], ?_⟩
      exact Nat.add_lt_of_lt_sub hc
    · exact ⟨m, by simp [updateList, hc], h⟩
  case space =>
    have hg : m.items[m.cursor]? = some m.items[m.cursor] :=
      List.getElem?_eq_getElem hlt
    by_cases hcur : m.items[m.cursor].worktree.isCurrent = true
    · exact ⟨m, by simp [updateList, hg, hcur], h⟩
    · refine ⟨{ m with items := m.items.set m.cursor ({ m.items[m.cursor] with checked := !m.items[m.cursor].checked }) }, by simp [updateList, hg, hcur], ?_⟩
      unfold cursorOk
      simpa using hlt
  case x =>
    have hg : m.items[m.cursor]? = some m.items[m.cursor] :=
      List.getElem?_eq_getElem hlt
    by_cases hcur : m.items[m.cursor].worktree.isCurrent = true
    · exact ⟨m, by simp [updateList, hg, hcur], h⟩
    · refine ⟨{ m with items := m.items.set m.cursor ({ m.items[m.cursor] with checked := !m.items[m.cursor].checked }) }, by simp [updateList, hg, hcur], ?_⟩
      unfold cursorOk
      simpa using hlt
  case a =>
    refine ⟨_, rfl, ?_⟩
    unfold cursorOk
    simpa using hlt
  case n =>
    refine ⟨_, rfl, ?_⟩
    unfold cursorOk
    simpa using hlt
  case d =>
    by_cases hc : selectedCount m > 0
    · exact ⟨{ m with mode := Mode.confirm, confirmCursor := 0 },
        by simp [updateList, hc], hlt⟩
    · exact ⟨m, by simp [updateList, hc], h⟩
  case enter =>
    by_cases hc : selectedCount m > 0
    · exact ⟨{ m with mode := Mode.confirm, confirmCursor := 0 },
        by simp [updateList, hc], hlt⟩
    · exact ⟨m, by simp [updateList, hc], h⟩
  case left => exact ⟨m, rfl, h⟩
  case h => exact ⟨m, rfl, h⟩
  case right => exact ⟨m, rfl, h⟩
  case l => exact ⟨m, rfl, h⟩
  case tab => exact ⟨m, rfl, h⟩
  case y => exact ⟨m, rfl, h⟩
  case other => exact ⟨m, rfl, h⟩

theorem update_total_of_cursorOk (env : GitEnv) (m : TuiModel) (key : Key)
    (h : cursorOk m) : ∃ r, update env m key = some r ∧ cursorOk r.1 := by
  cases hmode : m.mode
  case list =>
    rcases updateList_total_of_cursorOk m key h with ⟨m', hu, hok⟩
    exact ⟨(m', []), by simp [update, hmode, hu], hok⟩
  case confirm =>
    refine ⟨updateConfirm env m key, by simp [update, hmode], ?_⟩
    unfold cursorOk
    rw [updateConfirm_cursor env m key, updateConfirm_items env m key]
    exact h
  case done =>
    exact ⟨(m, []), by simp [update, hmode], h⟩

theorem runKeys_total_of_cursorOk (env : GitEnv) (keys : List Key) :
    ∀ m : TuiModel, cursorOk m →
      ∃ m', runKeys env m keys = some m' ∧ cursorOk m' := by
  induction keys with
  | nil => intro m h; exact ⟨m, rfl, h⟩
  | cons key rest ih =>
    intro m h
    rcases update_total_of_cursorOk env m key h with ⟨r, hu, hok⟩
    rcases ih r.1 hok with ⟨m', hrun, hok'⟩
    exact ⟨m', by simp [runKeys, hu, hrun], hok'⟩

theorem removalLoop_pruneOk_irrel (f : String → Bool → Except String Unit)
    (p₁ p₂ : Bool) (items : List Item) :
    removalLoop { removeWorktree := f, pruneOk := p₁ } items
      = removalLoop { removeWorktree := f, pruneOk := p₂ } items := by
  induction items with
  | nil => rfl
  | cons it rest ih => simp [removalLoop, ih]

theorem filter_prune_removeCalls (items : List Item) :
    (removeCallsSpec items).filter (fun c => c == GitCall.pruneCall) = [] := by
  unfold removeCallsSpec
  induction checkedOf items with
  | nil => rfl
  | cons a t ih =>
    simp only [List.map_cons, List.filter_cons]
    rw [show (GitCall.removeCall a.worktree.path a.worktree.isMerged == GitCall.pruneCall)
      = false from rfl]
    simpa using ih

/-- C3: the removal orchestrator attempts every checked item independently
in list order; successes append branch short names to `removed` and
failures append `"<name>: <cause>"` to `errors`, both in selection
iteration order; branch deletion is driven solely by the item's
`isMerged` snapshot (visible in the issued call list); exactly one prune
is issued after all attempts; and the orchestrator's result is
independent of the prune outcome (prune failure is swallowed). -/
theorem executeRemoval_spec : ∀ (env : GitEnv) (m : TuiModel),
    (executeRemoval env m).1.mode = Mode.done ∧
    (executeRemoval env m).1.removed = m.removed ++ removedSpec env m.items ∧
    (executeRemoval env m).1.errors = m.errors ++ errorsSpec env m.items ∧
    (executeRemoval env m).2 = removeCallsSpec m.items ++ [GitCall.pruneCall] ∧
    ((executeRemoval env m).2.filter (fun c => c == GitCall.pruneCall)).length = 1 ∧
    (∀ (f : String → Bool → Except String Unit) (p₁ p₂ : Bool),
      executeRemoval { removeWorktree := f, pruneOk := p₁ } m
        = executeRemoval { removeWorktree := f, pruneOk := p₂ } m) := by
  intro env m
  have hr := removalLoop_eq env m.items
  refine ⟨rfl, ?_, ?_, ?_, ?_, ?_⟩
  · simp [executeRemoval, hr]
  · simp [executeRemoval, hr]
  · simp [executeRemoval, hr]
  · simp [executeRemoval, hr, List.filter_append, filter_prune_removeCalls]
  · intro f p₁ p₂
    simp [executeRemoval, removalLoop_pruneOk_irrel f p₁ p₂ m.items]

/-- C7: classification (`statusText`, `syncText`) and tag assembly
(`buildTags`, staleness tag included) are deterministic: equal record
inputs and equal clock readings give identical output in two runs. -/
theorem classification_deterministic : ∀ (w₁ w₂ : Worktree) (now₁ now₂ : Int),
    w₁ = w₂ → now₁ = now₂ →
    w₁.statusText = w₂.statusText ∧ w₁.syncText = w₂.syncText ∧
    buildTags w₁ now₁ = buildTags w₂ now₂ := by
  intro w₁ w₂ now₁ now₂ hw hn
  subst hw
  subst hn
  exact ⟨rfl, rfl, rfl⟩

theorem classification_deterministic_witness :
    wtMain.statusText = wtMain.statusText ∧ wtMain.syncText = wtMain.syncText ∧
    buildTags wtMain 2592000 = buildTags wtMain 2592000 :=
  classification_deterministic wtMain wtMain 2592000 2592000 rfl rfl

theorem append_ne_clean_of_len (a b : String) (hb : 6 ≤ b.length) :
    a ++ b ≠ "clean" := by
  intro hEq
  have hlen := congrArg String.length hEq
  rw [String.length_append] at hlen
  have h5 : String.length "clean" = 5 := rfl
  omega

theorem len_seg_modified (u : Nat) : 6 ≤ (toString u ++ " modified").length := by
  rw [String.length_append]
  have h9 : String.length " modified" = 9 := rfl
  omega

theorem len_seg_untracked (u : Nat) : 6 ≤ (toString u ++ " untracked").length := by
  rw [String.length_append]
  have h10 : String.length " untracked" = 10 := rfl
  omega

/-- C5 counterexample: for the bare record with both counters zero,
`statusText` returns `"bare"`, so the claimed unrestricted iff between
`statusText = "clean"` and zero counters fails. -/
theorem statusText_bare_counterexample :
    ¬ (Worktree.statusText bareWt = "clean" ↔
        (bareWt.modified = 0 ∧ bareWt.untracked = 0)) := by
  decide

/-- C5 amended to non-bare records: `statusText` returns `"clean"` iff
both counters are zero and otherwise returns the comma-joined ordered
list of the positive `"<n> modified"` / `"<n> untracked"` parts, never
`"clean"`. -/
theorem statusText_clean_iff (w : Worktree) (hb : w.isBare = false) :
    (w.statusText = "clean" ↔ (w.modified = 0 ∧ w.untracked = 0)) ∧
    (¬(w.modified = 0 ∧ w.untracked = 0) →
      w.statusText = joinSep ", "
        ((if w.modified > 0 then [toString w.modified ++ " modified"] else [])
          ++ (if w.untracked > 0 then [toString w.untracked ++ " untracked"] else []))) := by
  by_cases hm : w.modified = 0 <;> by_cases hu : w.untracked = 0
  · have hclean : w.isClean = true := by simp [Worktree.isClean, hm, hu]
    constructor
    · constructor
      · intro _; exact ⟨hm, hu⟩
      · intro _; simp [Worktree.statusText, hb, hclean]
    · intro hcontra; exact absurd ⟨hm, hu⟩ hcontra
  · have hu' : w.untracked > 0 := Nat.pos_of_ne_zero hu
    have hclean : w.isClean = false := by simp [Worktree.isClean, hu]
    have hstat0 : w.statusText = joinSep ", "
        ((if w.modified > 0 then [toString w.modified ++ " modified"] else [])
          ++ (if w.untracked > 0 then [toString w.untracked ++ " untracked"] else [])) := by
      simp [Worktree.statusText, hb, hclean]
    have hstat : w.statusText = toString w.untracked ++ " untracked" := by
      rw [hstat0]
      simp [hm, hu', joinSep]
    have hne : w.statusText ≠ "clean" := by
      rw [hstat]
      exact append_ne_clean_of_len _ _ (by
        have h10 : String.length " untracked" = 10 := rfl
        omega)
    refine ⟨⟨fun hc => absurd hc hne, fun hz => absurd hz.2 hu⟩, fun _ => hstat0⟩
  · have hm' : w.modified > 0 := Nat.pos_of_ne_zero hm
    have hclean : w.isClean = false := by simp [Worktree.isClean, hm]
    have hstat0 : w.statusText = joinSep ", "
        ((if w.modified > 0 then [toString w.modified ++ " modified"] else [])
          ++ (if w.untracked > 0 then [toString w.untracked ++ " untracked"] else [])) := by
      simp [Worktree.statusText, hb, hclean]
    have hstat : w.statusText = toString w.modified ++ " modified" := by
      rw [hstat0]
      simp [hm', hu, joinSep]
    have hne : w.statusText ≠ "clean" := by
      rw [hstat]
      exact append_ne_clean_of_len _ _ (by
        have h9 : String.length " modified" = 9 := rfl
        omega)
    refine ⟨⟨fun hc => absurd hc hne, fun hz => absurd hz.1 hm⟩, fun _ => hstat0⟩
  · have hm' : w.modified > 0 := Nat.pos_of_ne_zero hm
    have hu' : w.untracked > 0 := Nat.pos_of_ne_zero hu
    have hclean : w.isClean = false := by simp [Worktree.isClean, hm]
    have hstat0 : w.statusText = joinSep ", "
        ((if w.modified > 0 then [toString w.modified ++ " modified"] else [])
          ++ (if w.untracked > 0 then [toString w.untracked ++ " untracked"] else [])) := by
      simp [Worktree.statusText, hb, hclean]
    have hstat : w.statusText =
        toString w.modified ++ " modified" ++ ", " ++ (toString w.untracked ++ " untracked") := by
      rw [hstat0]
      simp [hm', hu', joinSep]
    have hne : w.statusText ≠ "clean" := by
      rw [hstat]
      exact append_ne_clean_of_len _ _ (len_seg_untracked w.untracked)
    refine ⟨⟨fun hc => absurd hc hne, fun hz => absurd hz.1 hm⟩, fun _ => hstat0⟩

theorem statusText_clean_iff_witness :
    ((Worktree.statusText { wtMain with modified := 2, untracked := 1 } = "clean" ↔
        (({ wtMain with modified := 2, untracked := 1 } : Worktree).modified = 0 ∧
          ({ wtMain with modified := 2, untracked := 1 } : Worktree).untracked = 0))) ∧
    Worktree.statusText { wtMain with modified := 2, untracked := 1 } = "2 modified, 1 untracked" := by
  constructor
  · exact (statusText_clean_iff { wtMain with modified := 2, untracked := 1 } (by decide)).1
  · decide

/-- C6 counterexample: at exactly 30 inactive days and threshold 30, the
spec's strict rule (`inactiveDays > threshold`) says "not stale", yet the
clean command's filter (which tests `InactiveDays() >= staleDays`) flags
the worktree. -/
theorem cleanStale_strict_counterexample :
    cleanStaleHit 30 staleWt 2592000 = true ∧
    staleWt.inactiveDays 2592000 = 30 ∧
    isStaleSpec staleWt 30 2592000 = false := by
  refine ⟨by decide, by decide, by decide⟩

/-- C6 amended: the clean command's staleness filter flags a worktree iff
the (flag-supplied or configured) threshold is positive and
`inactiveDays` is at least the threshold (non-strict `>=`, not the
spec's strict `>`); `inactiveDays` is the truncated quotient
`(now - lastActivity) / 86400` and is `0` when `lastActivity` is unset,
so an unknown-history worktree is never flagged by this rule. -/
theorem cleanStale_amended : ∀ (t now : Int) (w : Worktree),
    (cleanStaleHit t w now = true ↔ 0 < t ∧ t ≤ w.inactiveDays now) ∧
    (w.lastCommit = none → w.inactiveDays now = 0) ∧
    (w.lastCommit = none → 0 < t → cleanStaleHit t w now = false) ∧
    (∀ lc : Int, w.lastCommit = some lc →
      w.inactiveDays now = Int.tdiv (now - lc) 86400) := by
  intro t now w
  refine ⟨?_, ?_, ?_, ?_⟩
  · constructor
    · intro hc
      simp only [cleanStaleHit, Bool.and_eq_true, decide_eq_true_eq] at hc
      exact ⟨hc.1, hc.2⟩
    · intro hc
      simp only [cleanStaleHit, Bool.and_eq_true, decide_eq_true_eq]
      exact ⟨hc.1, hc.2⟩
  · intro hnone
    simp [Worktree.inactiveDays, hnone]
  · intro hnone ht
    simp only [cleanStaleHit, Worktree.inactiveDays, hnone]
    simp only [Bool.and_eq_false_iff, decide_eq_false_iff_not]
    right
    omega
  · intro lc hsome
    simp [Worktree.inactiveDays, hsome]

theorem cleanStale_amended_witness :
    (cleanStaleHit 30 staleWt 5184000 = true ↔
      0 < (30 : Int) ∧ (30 : Int) ≤ staleWt.inactiveDays 5184000) ∧
    cleanStaleHit 30 { staleWt with lastCommit := none } 5184000 = false := by
  constructor
  · exact (cleanStale_amended 30 5184000 staleWt).1
  · exact ((cleanStale_amended 30 5184000 { staleWt with lastCommit := none }).2.2.1
      rfl (by decide))

/-- C1: the branch resolver works in strict tier order with
case-insensitive comparisons: a first exact match is returned alone
(lower tiers never run); otherwise, if any short name starts with the
query, exactly the ordered list of those candidates is returned;
otherwise exactly the ordered list of substring matches is returned
(empty when nothing matches at all). -/
theorem matchWorktrees_tiers : ∀ (wts : List Worktree) (query : String),
    (∀ wt : Worktree, wts.find? (exactPred query) = some wt →
      matchWorktrees wts query = [wt] ∧ exactPred query wt = true ∧ wt ∈ wts) ∧
    (wts.find? (exactPred query) = none →
      (prefMatchesOf wts query ≠ [] →
        matchWorktrees wts query = prefMatchesOf wts query) ∧
      (prefMatchesOf wts query = [] →
        matchWorktrees wts query = subMatchesOf wts query)) := by
  intro wts query
  constructor
  · intro wt hfind
    have hfind' : wts.find? (fun wt => caseFoldEq wt.branchShort query) = some wt := hfind
    refine ⟨?_, List.find?_some hfind, List.mem_of_find?_eq_some hfind⟩
    simp only [matchWorktrees]
    rw [hfind']
  · intro hnone
    have hnone' : wts.find? (fun wt => caseFoldEq wt.branchShort query) = none := hnone
    constructor
    · intro hne
      have hne' : (wts.filter
          (fun wt => strStartsWith (strLower wt.branchShort) (strLower query))).isEmpty = false := by
        rw [List.isEmpty_eq_false]
        exact hne
      simp only [matchWorktrees]
      rw [hnone', hne']
      rfl
    · intro hemp
      have hemp' : (wts.filter
          (fun wt => strStartsWith (strLower wt.branchShort) (strLower query))).isEmpty = true := by
        rw [List.isEmpty_iff]
        exact hemp
      simp only [matchWorktrees]
      rw [hnone', hemp']
      rfl

theorem matchWorktrees_tiers_witness :
    matchWorktrees demoWts "MAIN" = [wtMain] ∧
    matchWorktrees demoWts "feature" = prefMatchesOf demoWts "feature" ∧
    matchWorktrees demoWts "zzz" = subMatchesOf demoWts "zzz" := by
  refine ⟨?_, ?_, ?_⟩
  · exact ((matchWorktrees_tiers demoWts "MAIN").1 wtMain (by decide)).1
  · exact ((matchWorktrees_tiers demoWts "feature").2 (by decide)).1 (by decide)
  · exact ((matchWorktrees_tiers demoWts "zzz").2 (by decide)).2 (by decide)

theorem fst_ite_same {α β : Type} (c : Prop) [Decidable c] (a : α) (t₁ t₂ : β) :
    (if c then (a, t₁) else (a, t₂)).1 = a := by
  split
  · rfl
  · rfl

theorem removeWorktree_fst (env : RemoveEnv) (p : String) (b : Bool) :
    (removeWorktree env p b).1 =
      match env.plainRemove, env.forceRemove with
      | Except.ok _, _ => Except.ok ()
      | Except.error _, Except.ok _ => Except.ok ()
      | Except.error _, Except.error e => Except.error e := by
  cases hp : env.plainRemove with
  | ok u =>
    cases u
    simp only [removeWorktree, hp]
    rw [fst_ite_same]
  | error e₀ =>
    cases hf : env.forceRemove with
    | ok u =>
      cases u
      simp only [removeWorktree, hp, hf]
      rw [fst_ite_same]
    | error e₁ =>
      simp only [removeWorktree, hp, hf]

/-- C9: `removeWorktree` fails iff both the plain and the forced worktree
removal fail (the forced attempt's error is the one surfaced); the
branch-deletion outcome — in particular the branch already being gone —
is never consulted, so its failure cannot surface. -/
theorem removeWorktree_failure_spec : ∀ (env : RemoveEnv) (p : String) (b : Bool),
    ((removeWorktree env p b).1 = Except.ok () ↔
      (env.plainRemove = Except.ok () ∨ env.forceRemove = Except.ok ())) ∧
    (∀ e : String, (removeWorktree env p b).1 = Except.error e ↔
      ((∃ e₀, env.plainRemove = Except.error e₀) ∧ env.forceRemove = Except.error e)) ∧
    (∀ bd : Except String Unit,
      removeWorktree { env with branchDelete := bd } p b = removeWorktree env p b) := by
  intro env p b
  obtain ⟨listed, plain, force, bdel⟩ := env
  refine ⟨?_, ?_, ?_⟩
  · rw [removeWorktree_fst]
    cases plain with
    | ok u => cases u; simp
    | error e₀ => cases force with
      | ok u => cases u; simp
      | error e₁ => simp
  · intro e
    rw [removeWorktree_fst]
    cases plain with
    | ok u => cases u; simp
    | error e₀ => cases force with
      | ok u => cases u; simp
      | error e₁ => simp
  · intro bd
    rfl

theorem removeWorktree_failure_spec_witness :
    ((removeWorktree rmEnvFail "/repo-feature-auth" true).1 = Except.error "still locked" ↔
      ((∃ e₀, rmEnvFail.plainRemove = Except.error e₀) ∧
        rmEnvFail.forceRemove = Except.error "still locked")) ∧
    ((removeWorktree rmEnvForceOk "/repo-feature-auth" true).1 = Except.ok () ↔
      (rmEnvForceOk.plainRemove = Except.ok () ∨ rmEnvForceOk.forceRemove = Except.ok ())) := by
  constructor
  · exact (removeWorktree_failure_spec rmEnvFail "/repo-feature-auth" true).2.1 "still locked"
  · exact (removeWorktree_failure_spec rmEnvForceOk "/repo-feature-auth" true).1

/-- C2: in every session state reachable from the initial state, an item
whose record is the current worktree is unchecked; the toggle input on a
current item at the cursor is silently ignored (state unchanged). The
"select merged" handler preserves this because it only checks non-current
merged items (part of the reachability proof). -/
theorem tui_current_never_checked :
    (∀ (env : GitEnv) (wts : List Worktree) (keys : List Key) (m' : TuiModel),
      runKeys env (initModel wts) keys = some m' →
      ∀ it ∈ m'.items, it.worktree.isCurrent = true → it.checked = false) ∧
    (∀ (m : TuiModel) (it : Item), m.items.get? m.cursor = some it →
      it.worktree.isCurrent = true →
      updateList m Key.space = some m ∧ updateList m Key.x = some m) := by
  constructor
  · intro env wts keys m' hrun
    exact runKeys_preserves_noCurrentChecked env keys (initModel wts) m'
      (initModel_noCurrentChecked wts) hrun
  · intro m it hget hcur
    have hget' : m.items[m.cursor]? = some it := by
      rw [← List.get?_eq_getElem?]
      exact hget
    constructor
    · simp [updateList, hget', hcur]
    · simp [updateList, hget', hcur]

theorem tui_current_never_checked_witness :
    (updateList demoModel Key.space = some demoModel ∧
      updateList demoModel Key.x = some demoModel) ∧
    ({ worktree := wtMain, checked := false } : Item).checked = false := by
  constructor
  · exact tui_current_never_checked.2 demoModel { worktree := wtMain, checked := false }
      (by decide) (by decide)
  · exact tui_current_never_checked.1 env0 demoWts [] demoModel rfl
      { worktree := wtMain, checked := false } (by decide) (by decide)

/-- C10: applying "select merged" and then immediately "deselect all"
leaves every item unchecked, from any List-mode state with any starting
selection. -/
theorem selectMerged_deselectAll : ∀ (m m₁ m₂ : TuiModel),
    updateList m Key.a = some m₁ → updateList m₁ Key.n = some m₂ →
    ∀ it ∈ m₂.items, it.checked = false := by
  intro m m₁ m₂ _ h2 it hmem
  simp only [updateList, Option.some.injEq] at h2
  subst h2
  rcases List.mem_map.1 hmem with ⟨it0, _, heq⟩
  subst heq
  rfl

theorem selectMerged_deselectAll_witness :
    ({ worktree := wtFeatureAuth, checked := false } : Item).checked = false :=
  selectMerged_deselectAll demoModel demoAfterA demoModel (by decide) (by decide)
    { worktree := wtFeatureAuth, checked := false } (by decide)

/-- C4: in List mode, "request deletion" (`d`/`enter`) with zero checked
items is a no-op and with a nonzero count enters Confirm with the choice
reset to "No" (cursor 0); in Confirm mode, `enter` on "No" returns to
List issuing no git call, while `y` forces the choice to "Yes", invokes
the removal orchestrator exactly once (one prune in the issued trace) and
lands in Done regardless of the execution outcome. -/
theorem confirm_flow_spec : ∀ (env : GitEnv) (m : TuiModel),
    (selectedCount m = 0 →
      updateList m Key.d = some m ∧ updateList m Key.enter = some m) ∧
    (0 < selectedCount m →
      updateList m Key.d = some { m with mode := Mode.confirm, confirmCursor := 0 } ∧
      updateList m Key.enter = some { m with mode := Mode.confirm, confirmCursor := 0 }) ∧
    (m.confirmCursor = 0 →
      updateConfirm env m Key.enter = ({ m with mode := Mode.list }, [])) ∧
    (updateConfirm env m Key.y = executeRemoval env { m with confirmCursor := 1 } ∧
      (updateConfirm env m Key.y).1.mode = Mode.done ∧
      ((updateConfirm env m Key.y).2.filter (fun c => c == GitCall.pruneCall)).length = 1) := by
  intro env m
  refine ⟨?_, ?_, ?_, rfl, rfl, ?_⟩
  · intro h0
    constructor
    · simp [updateList, h0]
    · simp [updateList, h0]
  · intro hpos
    constructor
    · simp [updateList, hpos]
    · simp [updateList, hpos]
  · intro hc0
    simp [updateConfirm, hc0]
  · show ((executeRemoval env { m with confirmCursor := 1 }).2.filter
      (fun c => c == GitCall.pruneCall)).length = 1
    simp [executeRemoval, removalLoop_eq, List.filter_append, filter_prune_removeCalls]

theorem confirm_flow_spec_witness :
    (updateList demoModel Key.d = some demoModel ∧
      updateList demoModel Key.enter = some demoModel) ∧
    (updateList demoAfterA Key.d
        = some { demoAfterA with mode := Mode.confirm, confirmCursor := 0 } ∧
      updateList demoAfterA Key.enter
        = some { demoAfterA with mode := Mode.confirm, confirmCursor := 0 }) ∧
    updateConfirm env0 demoConfirm Key.enter = ({ demoConfirm with mode := Mode.list }, []) ∧
    (updateConfirm env0 demoConfirm Key.y).1.mode = Mode.done := by
  refine ⟨?_, ?_, ?_, ?_⟩
  · exact (confirm_flow_spec env0 demoModel).1 (by decide)
  · exact (confirm_flow_spec env0 demoAfterA).2.1 (by decide)
  · exact (confirm_flow_spec env0 demoConfirm).2.2.1 (by decide)
  · exact (confirm_flow_spec env0 demoConfirm).2.2.2.2.1

/-- C8 counterexample: with an empty item list, the toggle key's
`m.items[m.cursor]` access is out of range (a Go index panic, modelled as
`none`), so the claim fails for the empty list it explicitly includes. -/
theorem emptyList_toggle_counterexample :
    runKeys env0 (initModel []) [Key.space] = none := rfl

/-- C8 amended to non-empty item lists: for every non-empty worktree
list and every input sequence, every handler access stays in range (no
step is the `none` panic) and the cursor stays within `[0, len-1]`. -/
theorem cursor_safety_amended : ∀ (env : GitEnv) (wts : List Worktree) (keys : List Key),
    wts ≠ [] →
    ∃ m', runKeys env (initModel wts) keys = some m' ∧ m'.cursor < m'.items.length := by
  intro env wts keys hne
  have h0 : cursorOk (initModel wts) := by
    unfold cursorOk
    simp only [initModel, List.length_map]
    exact List.length_pos.mpr hne
  rcases runKeys_total_of_cursorOk env keys (initModel wts) h0 with ⟨m', hrun, hok⟩
  exact ⟨m', hrun, hok⟩

theorem cursor_safety_amended_witness :
    demoWts ≠ [] ∧
    ∃ m', runKeys env0 (initModel demoWts) [Key.space, Key.j, Key.x] = some m' ∧
      m'.cursor < m'.items.length :=
  ⟨by decide, cursor_safety_amended env0 demoWts [Key.space, Key.j, Key.x] (by decide)⟩
